import Mathlib

/-!
# Account store handlers (`main.go`)

A shallow embedding of the six HTTP handlers of `main.go` over the global map
`assetDB`.  The map is threaded through every handler as explicit state; each
handler returns the map it leaves behind together with the response it wrote.

* `assetDB : map[string]Account` is a finite map from strings to accounts.
* `json.NewDecoder(r.Body).Decode` belongs to the Go standard library; the
  handlers take it as the parameter `decode`, where `none` stands for a
  non-nil `err`.
* `mux.Vars(r)["dealerId"]` is the handler argument `dealerID`.
* A response is the status code and what was handed to the response writer.
* `dbMutex` serialises the handlers; one handler call is one state transition.
-/

namespace AccountAPI

/-- Go `float64`, kept as its IEEE-754 bit pattern: the handlers only copy it. -/
structure Float64 where
  bits : Nat
deriving DecidableEq

/-- Account represents the structure of an account asset. -/
structure Account where
  DealerID : String
  MSISDN : String
  MPIN : String
  Balance : Float64
  Status : String
  TransAmount : Float64
  TransType : String
  Remarks : String
deriving DecidableEq

/-- The Go zero value of `Account`, what `var a Account` holds. -/
def Account.zero : Account :=
  ⟨"", "", "", ⟨0⟩, "", ⟨0⟩, "", ""⟩

/-- The type of `assetDB`, a Go `map[string]Account`. -/
abbrev AssetDB := Finmap (fun _ : String => Account)

/-- The initial value of `assetDB`: `make(map[string]Account)`. -/
def assetDB : AssetDB := ∅

def StatusOK : Nat := 200
def StatusCreated : Nat := 201
def StatusNoContent : Nat := 204
def StatusBadRequest : Nat := 400
def StatusNotFound : Nat := 404
def StatusConflict : Nat := 409

/-- What a handler hands to the response writer after the status line. -/
inductive Body where
  /-- Nothing written. -/
  | empty
  /-- The plain-text message of `http.Error`. -/
  | text (msg : String)
  /-- The argument of `Encode`, one account. -/
  | account (a : Account)
  /-- The argument of `Encode`, a slice of accounts. -/
  | accounts (l : List Account)
deriving DecidableEq

/-- The status code and body of a handler's reply. -/
structure Response where
  status : Nat
  body : Body
deriving DecidableEq

/-- Go `http.Error(w, msg, code)`. -/
def httpError (msg : String) (code : Nat) : Response :=
  ⟨code, Body.text msg⟩

/-- AddAccount handles adding a new account to the system. -/
def AddAccount (decode : String → Option Account) (db : AssetDB) (reqBody : String) :
    AssetDB × Response :=
  match decode reqBody with
  | none => (db, httpError "Invalid data format" StatusBadRequest)
  | some newAccount =>
    match db.lookup newAccount.DealerID with
    | some _ => (db, httpError "Account already exists" StatusConflict)
    | none =>
      (db.insert newAccount.DealerID newAccount, ⟨StatusCreated, Body.account newAccount⟩)

/-- GetAccount retrieves an account by DealerID.  No `WriteHeader` call precedes
`Encode` on the found branch, so the status is the implicit 200. -/
def GetAccount (db : AssetDB) (dealerID : String) : AssetDB × Response :=
  match db.lookup dealerID with
  | none => (db, httpError "Account not found" StatusNotFound)
  | some account => (db, ⟨StatusOK, Body.account account⟩)

/-- UpdateAccount modifies an existing account. -/
def UpdateAccount (decode : String → Option Account) (db : AssetDB) (dealerID : String)
    (reqBody : String) : AssetDB × Response :=
  match decode reqBody with
  | none => (db, httpError "Invalid request data" StatusBadRequest)
  | some updatedAccount =>
    match db.lookup dealerID with
    | none => (db, httpError "Account not found" StatusNotFound)
    | some _ =>
      (db.insert dealerID updatedAccount, ⟨StatusOK, Body.account updatedAccount⟩)

/-- DeleteAccount removes an account from the system. -/
def DeleteAccount (db : AssetDB) (dealerID : String) : AssetDB × Response :=
  match db.lookup dealerID with
  | none => (db, httpError "Account not found" StatusNotFound)
  | some _ => (db.erase dealerID, ⟨StatusNoContent, Body.empty⟩)

/-- An order in which `range assetDB` may visit the map: Go leaves the order
unspecified, and every key is visited exactly once. -/
def IsRangeOrder (db : AssetDB) (order : List String) : Prop :=
  order.Nodup ∧ order.toFinset = db.keys

instance (db : AssetDB) (order : List String) : Decidable (IsRangeOrder db order) := by
  unfold IsRangeOrder; infer_instance

/-- The loop `for _, account := range assetDB { accounts = append(accounts, account) }`
run along the visiting order `order`, starting from the nil slice. -/
def rangeAppend (db : AssetDB) (order : List String) : List Account :=
  order.foldl
    (fun accounts k =>
      match db.lookup k with
      | some account => accounts ++ [account]
      | none => accounts)
    []

/-- ListAllAccounts returns all accounts currently stored.  `order` is the
order in which the runtime ranges over the map in this call. -/
def ListAllAccounts (db : AssetDB) (order : List String) : AssetDB × Response :=
  (db, ⟨StatusOK, Body.accounts (rangeAppend db order)⟩)

/-- MockTransactionHistory returns a mock transaction history for an account. -/
def MockTransactionHistory (db : AssetDB) (dealerID : String) : AssetDB × Response :=
  match db.lookup dealerID with
  | none => (db, httpError "Account not found" StatusNotFound)
  | some account => (db, ⟨StatusOK, Body.accounts [account]⟩)

/-- A decoder that accepts exactly the body `"ok"` and yields `a` for it. -/
def decodeOnly (a : Account) (reqBody : String) : Option Account :=
  if reqBody = "ok" then some a else none

/-- A decoder for two bodies: `"first"` yields `a`, every other body yields `b`. -/
def decodeTwo (a b : Account) (reqBody : String) : Option Account :=
  if reqBody = "first" then some a else some b

/-- A sample account with dealer id `d`. -/
def sample (d : String) (bal : Nat) : Account :=
  ⟨d, "9999", "1234", ⟨bal⟩, "active", ⟨0⟩, "", ""⟩

/-- One handler call, with the inputs the router hands to it. -/
inductive Op where
  | create (reqBody : String)
  | get (dealerID : String)
  | list (order : List String)
  | update (dealerID : String) (reqBody : String)
  | delete (dealerID : String)
  | history (dealerID : String)
deriving DecidableEq

/-- The route table of `main`: each operation runs its handler. -/
def step (decode : String → Option Account) (db : AssetDB) : Op → AssetDB × Response
  | Op.create reqBody => AddAccount decode db reqBody
  | Op.get dealerID => GetAccount db dealerID
  | Op.list order => ListAllAccounts db order
  | Op.update dealerID reqBody => UpdateAccount decode db dealerID reqBody
  | Op.delete dealerID => DeleteAccount db dealerID
  | Op.history dealerID => MockTransactionHistory db dealerID

/-- The map left behind by a serial run of handler calls. -/
def run (decode : String → Option Account) (db : AssetDB) (ops : List Op) : AssetDB :=
  ops.foldl (fun acc op => (step decode acc op).1) db

/-- An operation creates `dealerID` when it is a create whose body decodes to
an account carrying that dealer id. -/
def Op.creates (decode : String → Option Account) (dealerID : String) : Op → Prop
  | Op.create reqBody => ∃ a, decode reqBody = some a ∧ a.DealerID = dealerID
  | _ => False

/-- The replies of a serial run of handler calls, in call order. -/
def responses (decode : String → Option Account) : AssetDB → List Op → List Response
  | _, [] => []
  | db, op :: rest =>
    (step decode db op).2 :: responses decode (step decode db op).1 rest

/-- A decoder given by a table of bodies and the accounts they decode to;
a body outside the table does not decode. -/
def decodeTable (table : List (String × Account)) (reqBody : String) : Option Account :=
  table.lookup reqBody

/-- A store is well-keyed when every record is stored under its own dealer id. -/
def WellKeyed (db : AssetDB) : Prop :=
  ∀ e ∈ db.entries, e.2.DealerID = e.1

instance (db : AssetDB) : Decidable (WellKeyed db) := by
  unfold WellKeyed; infer_instance

/-- No two entries stored under different keys hold records with the same
dealer id field. -/
def UniqueDealerIDs (db : AssetDB) : Prop :=
  ∀ e1 ∈ db.entries, ∀ e2 ∈ db.entries, e1.2.DealerID = e2.2.DealerID → e1.1 = e2.1

instance (db : AssetDB) : Decidable (UniqueDealerIDs db) := by
  unfold UniqueDealerIDs; infer_instance

/-- An operation keeps the key when it is not an update whose decoded payload
carries a dealer id other than the path id. -/
def Op.keepsKey (decode : String → Option Account) : Op → Prop
  | Op.update dealerID reqBody => ∀ b, decode reqBody = some b → b.DealerID = dealerID
  | _ => True

/-- The operation is a create or a delete. -/
def Op.isCreateOrDelete : Op → Prop
  | Op.create _ => True
  | Op.delete _ => True
  | _ => False

instance (op : Op) : Decidable op.isCreateOrDelete := by
  cases op <;> unfold Op.isCreateOrDelete <;> infer_instance

/-! ### Program order of the effects of one handler call -/

/-- The effectful statements of the handlers, as they appear in `main.go`. -/
inductive Event where
  /-- The call `mux.Vars(r)`, reading the path variables of the request. -/
  | vars
  /-- The call `dbMutex.Lock()`. -/
  | lock
  /-- The deferred `dbMutex.Unlock()`, run when the handler returns. -/
  | unlock
  /-- The call `json.NewDecoder(r.Body).Decode`, reading the request body. -/
  | readBody
  /-- A read `assetDB[k]`. -/
  | mapGet (k : String)
  /-- An assignment `assetDB[k] = a`. -/
  | mapSet (k : String) (a : Account)
  /-- The call `delete(assetDB, k)`. -/
  | mapDelete (k : String)
  /-- The loop `range assetDB`. -/
  | mapRange
  /-- The call `http.Error(w, msg, code)`. -/
  | httpError (msg : String) (code : Nat)
  /-- The call `w.WriteHeader(code)`. -/
  | writeHeader (code : Nat)
  /-- The call `json.NewEncoder(w).Encode(b)`. -/
  | encode (b : Body)
deriving DecidableEq

/-- The event reads the request body or writes to the response writer. -/
def Event.isNetwork : Event → Bool
  | Event.readBody => true
  | Event.httpError _ _ => true
  | Event.writeHeader _ => true
  | Event.encode _ => true
  | _ => false

/-- The event reads or writes `assetDB`. -/
def Event.isMapAccess : Event → Bool
  | Event.mapGet _ => true
  | Event.mapSet _ _ => true
  | Event.mapDelete _ => true
  | Event.mapRange => true
  | _ => false

/-- The statements of `AddAccount` in program order (lines 31 to 47). -/
def AddAccountEvents (decode : String → Option Account) (db : AssetDB) (reqBody : String) :
    List Event :=
  [Event.lock, Event.readBody] ++
    (match decode reqBody with
      | none => [Event.httpError "Invalid data format" StatusBadRequest]
      | some newAccount =>
        Event.mapGet newAccount.DealerID ::
          (match db.lookup newAccount.DealerID with
            | some _ => [Event.httpError "Account already exists" StatusConflict]
            | none =>
              [Event.mapSet newAccount.DealerID newAccount, Event.writeHeader StatusCreated,
                Event.encode (Body.account newAccount)])) ++
    [Event.unlock]

/-- The statements of `GetAccount` in program order (lines 52 to 64). -/
def GetAccountEvents (db : AssetDB) (dealerID : String) : List Event :=
  [Event.vars, Event.lock, Event.mapGet dealerID] ++
    (match db.lookup dealerID with
      | none => [Event.httpError "Account not found" StatusNotFound]
      | some account => [Event.encode (Body.account account)]) ++
    [Event.unlock]

/-- The statements of `UpdateAccount` in program order (lines 69 to 88). -/
def UpdateAccountEvents (decode : String → Option Account) (db : AssetDB)
    (dealerID : String) (reqBody : String) : List Event :=
  [Event.vars, Event.lock, Event.readBody] ++
    (match decode reqBody with
      | none => [Event.httpError "Invalid request data" StatusBadRequest]
      | some updatedAccount =>
        Event.mapGet dealerID ::
          (match db.lookup dealerID with
            | none => [Event.httpError "Account not found" StatusNotFound]
            | some _ =>
              [Event.mapSet dealerID updatedAccount, Event.writeHeader StatusOK,
                Event.encode (Body.account updatedAccount)])) ++
    [Event.unlock]

/-- The statements of `DeleteAccount` in program order (lines 93 to 105). -/
def DeleteAccountEvents (db : AssetDB) (dealerID : String) : List Event :=
  [Event.vars, Event.lock, Event.mapGet dealerID] ++
    (match db.lookup dealerID with
      | none => [Event.httpError "Account not found" StatusNotFound]
      | some _ => [Event.mapDelete dealerID, Event.writeHeader StatusNoContent]) ++
    [Event.unlock]

/-- The statements of `ListAllAccounts` in program order (lines 110 to 118). -/
def ListAllAccountsEvents (db : AssetDB) (order : List String) : List Event :=
  [Event.lock, Event.mapRange, Event.encode (Body.accounts (rangeAppend db order)),
    Event.unlock]

/-- The statements of `MockTransactionHistory` in program order (lines 123 to 137). -/
def MockTransactionHistoryEvents (db : AssetDB) (dealerID : String) : List Event :=
  [Event.vars, Event.lock, Event.mapGet dealerID] ++
    (match db.lookup dealerID with
      | none => [Event.httpError "Account not found" StatusNotFound]
      | some account => [Event.encode (Body.accounts [account])]) ++
    [Event.unlock]

/-- The statements run by one handler call. -/
def events (decode : String → Option Account) (db : AssetDB) : Op → List Event
  | Op.create reqBody => AddAccountEvents decode db reqBody
  | Op.get dealerID => GetAccountEvents db dealerID
  | Op.list order => ListAllAccountsEvents db order
  | Op.update dealerID reqBody => UpdateAccountEvents decode db dealerID reqBody
  | Op.delete dealerID => DeleteAccountEvents db dealerID
  | Op.history dealerID => MockTransactionHistoryEvents db dealerID

/-- The map after the writes of a sequence of statements. -/
def applyEvents (db : AssetDB) (evs : List Event) : AssetDB :=
  evs.foldl
    (fun acc e =>
      match e with
      | Event.mapSet k a => acc.insert k a
      | Event.mapDelete k => acc.erase k
      | _ => acc)
    db

/-- The reply a sequence of statements leaves in the response writer; the
status is 200 unless a statement sets it. -/
def replyOf (evs : List Event) : Response :=
  evs.foldl
    (fun r e =>
      match e with
      | Event.httpError msg code => ⟨code, Body.text msg⟩
      | Event.writeHeader code => ⟨code, r.body⟩
      | Event.encode b => ⟨r.status, b⟩
      | _ => r)
    ⟨StatusOK, Body.empty⟩

/-- The events satisfying `p` that occur while `dbMutex` is held (for
`want = true`) or while it is not held (for `want = false`); `held` says
whether the mutex is held before the first event. -/
def eventsWhile (want : Bool) (p : Event → Bool) : Bool → List Event → List Event
  | _, [] => []
  | _, Event.lock :: rest => eventsWhile want p true rest
  | _, Event.unlock :: rest => eventsWhile want p false rest
  | held, e :: rest =>
    if held = want ∧ p e = true then e :: eventsWhile want p held rest
    else eventsWhile want p held rest

end AccountAPI

namespace AccountAPI

/-! ## Branch equations of the handlers -/

theorem AddAccount_bad (decode : String → Option Account) (s : AssetDB) (body : String)
    (hdec : decode body = none) :
    AddAccount decode s body = (s, ⟨400, Body.text "Invalid data format"⟩) := by
  simp [AddAccount, hdec, httpError, StatusBadRequest]

theorem AddAccount_conflict (decode : String → Option Account) (s : AssetDB) (body : String)
    (A : Account) (hdec : decode body = some A) (hmem : A.DealerID ∈ s) :
    AddAccount decode s body = (s, ⟨409, Body.text "Account already exists"⟩) := by
  obtain ⟨b, hb⟩ := Finmap.mem_iff.mp hmem
  simp [AddAccount, hdec, hb, httpError, StatusConflict]

theorem AddAccount_created (decode : String → Option Account) (s : AssetDB) (body : String)
    (A : Account) (hdec : decode body = some A) (hfresh : A.DealerID ∉ s) :
    AddAccount decode s body = (s.insert A.DealerID A, ⟨201, Body.account A⟩) := by
  have hnone : s.lookup A.DealerID = none := Finmap.lookup_eq_none.mpr hfresh
  simp [AddAccount, hdec, hnone, StatusCreated]

theorem GetAccount_found (s : AssetDB) (id : String) (a : Account)
    (h : s.lookup id = some a) : GetAccount s id = (s, ⟨200, Body.account a⟩) := by
  simp [GetAccount, h, StatusOK]

theorem GetAccount_missing (s : AssetDB) (id : String) (h : id ∉ s) :
    GetAccount s id = (s, ⟨404, Body.text "Account not found"⟩) := by
  have hnone : s.lookup id = none := Finmap.lookup_eq_none.mpr h
  simp [GetAccount, hnone, httpError, StatusNotFound]

theorem UpdateAccount_bad (decode : String → Option Account) (s : AssetDB) (id body : String)
    (hdec : decode body = none) :
    UpdateAccount decode s id body = (s, ⟨400, Body.text "Invalid request data"⟩) := by
  simp [UpdateAccount, hdec, httpError, StatusBadRequest]

theorem UpdateAccount_missing (decode : String → Option Account) (s : AssetDB)
    (id body : String) (B : Account) (hdec : decode body = some B) (h : id ∉ s) :
    UpdateAccount decode s id body = (s, ⟨404, Body.text "Account not found"⟩) := by
  have hnone : s.lookup id = none := Finmap.lookup_eq_none.mpr h
  simp [UpdateAccount, hdec, hnone, httpError, StatusNotFound]

theorem UpdateAccount_ok (decode : String → Option Account) (s : AssetDB)
    (id body : String) (B : Account) (hdec : decode body = some B) (h : id ∈ s) :
    UpdateAccount decode s id body = (s.insert id B, ⟨200, Body.account B⟩) := by
  obtain ⟨b, hb⟩ := Finmap.mem_iff.mp h
  simp [UpdateAccount, hdec, hb, StatusOK]

theorem DeleteAccount_missing (s : AssetDB) (id : String) (h : id ∉ s) :
    DeleteAccount s id = (s, ⟨404, Body.text "Account not found"⟩) := by
  have hnone : s.lookup id = none := Finmap.lookup_eq_none.mpr h
  simp [DeleteAccount, hnone, httpError, StatusNotFound]

theorem DeleteAccount_ok (s : AssetDB) (id : String) (h : id ∈ s) :
    DeleteAccount s id = (s.erase id, ⟨204, Body.empty⟩) := by
  obtain ⟨b, hb⟩ := Finmap.mem_iff.mp h
  simp [DeleteAccount, hb, StatusNoContent]

theorem History_found (s : AssetDB) (id : String) (a : Account)
    (h : s.lookup id = some a) :
    MockTransactionHistory s id = (s, ⟨200, Body.accounts [a]⟩) := by
  simp [MockTransactionHistory, h, StatusOK]

theorem History_missing (s : AssetDB) (id : String) (h : id ∉ s) :
    MockTransactionHistory s id = (s, ⟨404, Body.text "Account not found"⟩) := by
  have hnone : s.lookup id = none := Finmap.lookup_eq_none.mpr h
  simp [MockTransactionHistory, hnone, httpError, StatusNotFound]

/-! ## Create -/

/-- C1: a create whose body decodes to an account `A` with a dealer id that is
not a key of the store answers 201 with body `A`, and a get of `A.DealerID` on
the store it leaves answers 200 with a record equal to `A`. -/
theorem create_then_get (decode : String → Option Account) (s : AssetDB) (body : String)
    (A : Account) (hdec : decode body = some A) (hfresh : A.DealerID ∉ s) :
    (AddAccount decode s body).2 = ⟨201, Body.account A⟩ ∧
      (GetAccount (AddAccount decode s body).1 A.DealerID).2 = ⟨200, Body.account A⟩ := by
  rw [AddAccount_created decode s body A hdec hfresh]
  exact ⟨rfl, by rw [GetAccount_found _ _ A (Finmap.lookup_insert s)]⟩

theorem create_then_get_witness :
    (AddAccount (decodeOnly (sample "D1" 100)) assetDB "ok").2
        = ⟨201, Body.account (sample "D1" 100)⟩ ∧
      (GetAccount (AddAccount (decodeOnly (sample "D1" 100)) assetDB "ok").1
        (sample "D1" 100).DealerID).2 = ⟨200, Body.account (sample "D1" 100)⟩ :=
  create_then_get (decodeOnly (sample "D1" 100)) assetDB "ok" (sample "D1" 100)
    (by decide) (by decide)

/-- C2: after a create of `A` on a store without `A.DealerID`, a second create
whose body decodes to an account with the same dealer id answers 409 and
leaves the store as the first create left it, with `A` under that key. -/
theorem create_twice_conflict (decode : String → Option Account) (s : AssetDB)
    (body body2 : String) (A A2 : Account) (hdec : decode body = some A)
    (hdec2 : decode body2 = some A2) (hsame : A2.DealerID = A.DealerID)
    (hfresh : A.DealerID ∉ s) :
    (AddAccount decode (AddAccount decode s body).1 body2).2.status = 409 ∧
      (AddAccount decode (AddAccount decode s body).1 body2).1
        = (AddAccount decode s body).1 ∧
      (AddAccount decode (AddAccount decode s body).1 body2).1.lookup A.DealerID
        = some A := by
  have hmem : A2.DealerID ∈ (AddAccount decode s body).1 := by
    rw [AddAccount_created decode s body A hdec hfresh, hsame]
    exact Finmap.mem_insert.mpr (Or.inl rfl)
  rw [AddAccount_conflict decode _ body2 A2 hdec2 hmem]
  refine ⟨rfl, rfl, ?_⟩
  rw [AddAccount_created decode s body A hdec hfresh]
  exact Finmap.lookup_insert s

theorem create_twice_conflict_witness :
    (AddAccount (decodeTwo (sample "D1" 100) (sample "D1" 7))
        (AddAccount (decodeTwo (sample "D1" 100) (sample "D1" 7)) assetDB "first").1 "second").2.status = 409 ∧
      (AddAccount (decodeTwo (sample "D1" 100) (sample "D1" 7))
        (AddAccount (decodeTwo (sample "D1" 100) (sample "D1" 7)) assetDB "first").1 "second").1
        = (AddAccount (decodeTwo (sample "D1" 100) (sample "D1" 7)) assetDB "first").1 ∧
      (AddAccount (decodeTwo (sample "D1" 100) (sample "D1" 7))
        (AddAccount (decodeTwo (sample "D1" 100) (sample "D1" 7)) assetDB "first").1 "second").1.lookup
          (sample "D1" 100).DealerID = some (sample "D1" 100) :=
  create_twice_conflict
    (decodeTwo (sample "D1" 100) (sample "D1" 7))
    assetDB "first" "second" (sample "D1" 100) (sample "D1" 7)
    (by decide) (by decide) (by decide) (by decide)

/-- C3, as stated, fails: the body decoding to the zero account, whose dealer
id is the empty string, is created on the empty store with status 201 and the
record is stored under the key `""`. -/
theorem create_empty_dealerID_succeeds :
    Account.zero.DealerID = "" ∧
      (AddAccount (decodeOnly Account.zero) assetDB "ok").2
        = ⟨201, Body.account Account.zero⟩ ∧
      (AddAccount (decodeOnly Account.zero) assetDB "ok").1.lookup ""
        = some Account.zero := by
  decide

/-- C3, amended: for a body that decodes to `A`, create answers 201 exactly
when `A.DealerID` is not a key of the store, and then stores `A` under it;
otherwise the store is unchanged.  The empty dealer id is a key like any
other: on a store without the key `""` such a create succeeds. -/
theorem create_succeeds_iff_absent (decode : String → Option Account) (s : AssetDB)
    (body : String) (A : Account) (hdec : decode body = some A) :
    ((AddAccount decode s body).2.status = 201 ↔ A.DealerID ∉ s) ∧
      (A.DealerID ∉ s → (AddAccount decode s body).1 = s.insert A.DealerID A) ∧
      (A.DealerID ∈ s → (AddAccount decode s body).1 = s) ∧
      (A.DealerID = "" → "" ∉ s →
        (AddAccount decode s body).2 = ⟨201, Body.account A⟩ ∧
          (AddAccount decode s body).1.lookup "" = some A) := by
  refine ⟨?_, ?_, ?_, ?_⟩
  · by_cases hmem : A.DealerID ∈ s
    · rw [AddAccount_conflict decode s body A hdec hmem]
      simp [hmem]
    · rw [AddAccount_created decode s body A hdec hmem]
      simp [hmem]
  · intro hfresh
    rw [AddAccount_created decode s body A hdec hfresh]
  · intro hmem
    rw [AddAccount_conflict decode s body A hdec hmem]
  · intro hempty hfresh
    have hfresh2 : A.DealerID ∉ s := by rw [hempty]; exact hfresh
    rw [AddAccount_created decode s body A hdec hfresh2]
    refine ⟨rfl, ?_⟩
    rw [← hempty]
    exact Finmap.lookup_insert s

theorem create_succeeds_iff_absent_witness :
    ((AddAccount (decodeOnly Account.zero) assetDB "ok").2.status = 201
        ↔ Account.zero.DealerID ∉ assetDB) ∧
      (Account.zero.DealerID ∉ assetDB → (AddAccount (decodeOnly Account.zero) assetDB "ok").1
        = assetDB.insert Account.zero.DealerID Account.zero) ∧
      (Account.zero.DealerID ∈ assetDB →
        (AddAccount (decodeOnly Account.zero) assetDB "ok").1 = assetDB) ∧
      (Account.zero.DealerID = "" → "" ∉ assetDB →
        (AddAccount (decodeOnly Account.zero) assetDB "ok").2
          = ⟨201, Body.account Account.zero⟩ ∧
        (AddAccount (decodeOnly Account.zero) assetDB "ok").1.lookup ""
          = some Account.zero) :=
  create_succeeds_iff_absent (decodeOnly Account.zero) assetDB "ok" Account.zero (by decide)

/-! ## Update, lookup failures and malformed bodies -/

/-- C4: an update of an existing key with a body that decodes to `B` answers
200 with body `B`; afterwards the record under the key is exactly `B`, so get
answers 200 with `B` and nothing of the previous record is left. -/
theorem update_replaces_record (decode : String → Option Account) (s : AssetDB)
    (id body : String) (B : Account) (hdec : decode body = some B) (hmem : id ∈ s) :
    (UpdateAccount decode s id body).2 = ⟨200, Body.account B⟩ ∧
      (UpdateAccount decode s id body).1.lookup id = some B ∧
      (GetAccount (UpdateAccount decode s id body).1 id).2 = ⟨200, Body.account B⟩ := by
  rw [UpdateAccount_ok decode s id body B hdec hmem]
  have hlook : (s.insert id B).lookup id = some B := Finmap.lookup_insert s
  exact ⟨rfl, hlook, by rw [GetAccount_found _ _ B hlook]⟩

theorem update_replaces_record_witness :
    (UpdateAccount (decodeOnly Account.zero)
        (assetDB.insert "D1" (sample "D1" 100)) "D1" "ok").2
        = ⟨200, Body.account Account.zero⟩ ∧
      (UpdateAccount (decodeOnly Account.zero)
        (assetDB.insert "D1" (sample "D1" 100)) "D1" "ok").1.lookup "D1"
        = some Account.zero ∧
      (GetAccount (UpdateAccount (decodeOnly Account.zero)
        (assetDB.insert "D1" (sample "D1" 100)) "D1" "ok").1 "D1").2
        = ⟨200, Body.account Account.zero⟩ :=
  update_replaces_record (decodeOnly Account.zero) (assetDB.insert "D1" (sample "D1" 100))
    "D1" "ok" Account.zero (by decide) (by decide)

/-- A key that is absent stays absent under every handler call that does not
create it. -/
theorem step_keeps_absent (decode : String → Option Account) (s : AssetDB) (id : String)
    (op : Op) (habs : id ∉ s) (hop : ¬ op.creates decode id) :
    id ∉ (step decode s op).1 := by
  cases op with
  | create reqBody =>
    simp only [step]
    cases hdec : decode reqBody with
    | none => rw [AddAccount_bad decode s reqBody hdec]; exact habs
    | some A =>
      have hne : A.DealerID ≠ id := fun h => hop ⟨A, hdec, h⟩
      by_cases hmem : A.DealerID ∈ s
      · rw [AddAccount_conflict decode s reqBody A hdec hmem]; exact habs
      · rw [AddAccount_created decode s reqBody A hdec hmem]
        intro h
        rcases Finmap.mem_insert.mp h with h | h
        · exact hne h.symm
        · exact habs h
  | get dealerID =>
    simp only [step, GetAccount]
    cases s.lookup dealerID <;> exact habs
  | list order => exact habs
  | update dealerID reqBody =>
    simp only [step]
    cases hdec : decode reqBody with
    | none => rw [UpdateAccount_bad decode s dealerID reqBody hdec]; exact habs
    | some B =>
      by_cases hmem : dealerID ∈ s
      · rw [UpdateAccount_ok decode s dealerID reqBody B hdec hmem]
        intro h
        rcases Finmap.mem_insert.mp h with h | h
        · exact habs (h ▸ hmem)
        · exact habs h
      · rw [UpdateAccount_missing decode s dealerID reqBody B hdec hmem]; exact habs
  | delete dealerID =>
    simp only [step]
    by_cases hmem : dealerID ∈ s
    · rw [DeleteAccount_ok s dealerID hmem]
      intro h
      exact habs (Finmap.mem_erase.mp h).2
    · rw [DeleteAccount_missing s dealerID hmem]; exact habs
  | history dealerID =>
    simp only [step, MockTransactionHistory]
    cases s.lookup dealerID <;> exact habs

/-- A key that no call of a run creates is absent after the run if it was
absent before. -/
theorem run_keeps_absent (decode : String → Option Account) (id : String) (ops : List Op) :
    ∀ s : AssetDB, id ∉ s → (∀ op ∈ ops, ¬ op.creates decode id) →
      id ∉ run decode s ops := by
  induction ops with
  | nil => intro s habs _; exact habs
  | cons op rest ih =>
    intro s habs hops
    have h1 : id ∉ (step decode s op).1 :=
      step_keeps_absent decode s id op habs (hops op (List.mem_cons_self _ _))
    exact ih _ h1 (fun o ho => hops o (List.mem_cons_of_mem _ ho))

/-- C5: get, delete and history answer 404 exactly when the id is not a key of
the store, and so does update for a body that decodes.  An id is not a key
after any run from the empty map in which no call creates it, and it is not a
key of the store that a delete of it leaves. -/
theorem notFound_iff_absent (decode : String → Option Account) (s : AssetDB) (id : String) :
    ((GetAccount s id).2.status = 404 ↔ id ∉ s) ∧
      ((DeleteAccount s id).2.status = 404 ↔ id ∉ s) ∧
      ((MockTransactionHistory s id).2.status = 404 ↔ id ∉ s) ∧
      (∀ body B, decode body = some B →
        ((UpdateAccount decode s id body).2.status = 404 ↔ id ∉ s)) ∧
      (∀ ops : List Op, (∀ op ∈ ops, ¬ op.creates decode id) →
        id ∉ run decode assetDB ops) ∧
      id ∉ (DeleteAccount s id).1 := by
  by_cases hmem : id ∈ s
  · obtain ⟨a, ha⟩ := Finmap.mem_iff.mp hmem
    refine ⟨?_, ?_, ?_, ?_, ?_, ?_⟩
    · rw [GetAccount_found s id a ha]; simp [hmem]
    · rw [DeleteAccount_ok s id hmem]; simp [hmem]
    · rw [History_found s id a ha]; simp [hmem]
    · intro body B hdec
      rw [UpdateAccount_ok decode s id body B hdec hmem]; simp [hmem]
    · intro ops hops
      exact run_keeps_absent decode id ops assetDB (Finmap.not_mem_empty) hops
    · rw [DeleteAccount_ok s id hmem]; exact Finmap.not_mem_erase_self
  · refine ⟨?_, ?_, ?_, ?_, ?_, ?_⟩
    · rw [GetAccount_missing s id hmem]; simp [hmem]
    · rw [DeleteAccount_missing s id hmem]; simp [hmem]
    · rw [History_missing s id hmem]; simp [hmem]
    · intro body B hdec
      rw [UpdateAccount_missing decode s id body B hdec hmem]; simp [hmem]
    · intro ops hops
      exact run_keeps_absent decode id ops assetDB (Finmap.not_mem_empty) hops
    · rw [DeleteAccount_missing s id hmem]; exact hmem

/-- C6: on a store without the key `id`, an update with a body that decodes to
`B` and a delete both leave the store as it was; in particular `id` is still
not a key and the entry under `B.DealerID` is what it was. -/
theorem absent_update_delete_noop (decode : String → Option Account) (s : AssetDB)
    (id body : String) (B : Account) (hdec : decode body = some B) (habs : id ∉ s) :
    (UpdateAccount decode s id body).1 = s ∧
      (DeleteAccount s id).1 = s ∧
      id ∉ (UpdateAccount decode s id body).1 ∧
      (UpdateAccount decode s id body).1.lookup B.DealerID = s.lookup B.DealerID := by
  rw [UpdateAccount_missing decode s id body B hdec habs, DeleteAccount_missing s id habs]
  exact ⟨rfl, rfl, habs, rfl⟩

theorem absent_update_delete_noop_witness :
    (UpdateAccount (decodeOnly (sample "D2" 5))
        (assetDB.insert "D1" (sample "D1" 100)) "D9" "ok").1
        = assetDB.insert "D1" (sample "D1" 100) ∧
      (DeleteAccount (assetDB.insert "D1" (sample "D1" 100)) "D9").1
        = assetDB.insert "D1" (sample "D1" 100) ∧
      "D9" ∉ (UpdateAccount (decodeOnly (sample "D2" 5))
        (assetDB.insert "D1" (sample "D1" 100)) "D9" "ok").1 ∧
      (UpdateAccount (decodeOnly (sample "D2" 5))
        (assetDB.insert "D1" (sample "D1" 100)) "D9" "ok").1.lookup (sample "D2" 5).DealerID
        = (assetDB.insert "D1" (sample "D1" 100)).lookup (sample "D2" 5).DealerID :=
  absent_update_delete_noop (decodeOnly (sample "D2" 5)) (assetDB.insert "D1" (sample "D1" 100))
    "D9" "ok" (sample "D2" 5) (by decide) (by decide)

/-- C7: when the body does not decode, create and update answer 400 and leave
the store as it was, for every store and every path id: create does not reach
the 409 check and update does not reach the 404 check. -/
theorem malformed_body_bad_request (decode : String → Option Account) (s : AssetDB)
    (id body : String) (hdec : decode body = none) :
    AddAccount decode s body = (s, ⟨400, Body.text "Invalid data format"⟩) ∧
      UpdateAccount decode s id body = (s, ⟨400, Body.text "Invalid request data"⟩) :=
  ⟨AddAccount_bad decode s body hdec, UpdateAccount_bad decode s id body hdec⟩

theorem malformed_body_bad_request_witness :
    "D9" ∉ assetDB.insert "D1" (sample "D1" 100) ∧
      AddAccount (decodeOnly (sample "D1" 5)) (assetDB.insert "D1" (sample "D1" 100)) "\x7b"
        = (assetDB.insert "D1" (sample "D1" 100), ⟨400, Body.text "Invalid data format"⟩) ∧
      UpdateAccount (decodeOnly (sample "D1" 5)) (assetDB.insert "D1" (sample "D1" 100))
          "D9" "\x7b"
        = (assetDB.insert "D1" (sample "D1" 100), ⟨400, Body.text "Invalid request data"⟩) :=
  ⟨by decide,
    malformed_body_bad_request (decodeOnly (sample "D1" 5))
      (assetDB.insert "D1" (sample "D1" 100)) "D9" "\x7b" (by decide)⟩

/-! ## The range loop of `ListAllAccounts` -/

/-- The append loop collects, in visiting order, the records of the visited
keys that are present. -/
theorem rangeAppend_eq_filterMap (db : AssetDB) (order : List String) :
    rangeAppend db order = order.filterMap (fun k => db.lookup k) := by
  have key : ∀ (acc : List Account),
      order.foldl
        (fun accounts k =>
          match db.lookup k with
          | some account => accounts ++ [account]
          | none => accounts) acc
        = acc ++ order.filterMap (fun k => db.lookup k) := by
    induction order with
    | nil => intro acc; simp
    | cons k rest ih =>
      intro acc
      rw [List.foldl_cons, ih]
      cases hk : db.lookup k with
      | none => simp [List.filterMap_cons, hk]
      | some a => simp [List.filterMap_cons, hk]
  simpa [rangeAppend] using key []

/-- Along a visiting order every visited key is present, so the loop yields
one record per visited key, in the same order. -/
theorem rangeAppend_map_some (db : AssetDB) (order : List String)
    (h : IsRangeOrder db order) :
    (rangeAppend db order).map some = order.map (fun k => db.lookup k) := by
  rw [rangeAppend_eq_filterMap]
  have hmem : ∀ k ∈ order, k ∈ db := by
    intro k hk
    have : k ∈ order.toFinset := List.mem_toFinset.mpr hk
    rw [h.2] at this
    exact Finmap.mem_keys.mp this
  clear h
  induction order with
  | nil => rfl
  | cons k rest ih =>
    obtain ⟨a, ha⟩ := Finmap.mem_iff.mp (hmem k (List.mem_cons_self _ _))
    have ih2 := ih (fun x hx => hmem x (List.mem_cons_of_mem _ hx))
    simp [List.filterMap_cons, ha, ih2]

/-- The loop yields as many records as the map has keys. -/
theorem rangeAppend_length (db : AssetDB) (order : List String)
    (h : IsRangeOrder db order) : (rangeAppend db order).length = db.keys.card := by
  have h1 := congrArg List.length (rangeAppend_map_some db order h)
  rw [List.length_map, List.length_map] at h1
  rw [h1, ← h.2, List.toFinset_card_of_nodup h.1]

/-- For an association list without duplicate keys, looking up its keys in
order returns its values in order. -/
theorem keys_filterMap_dlookup (l : List (Sigma (fun _ : String => Account)))
    (hl : l.NodupKeys) :
    l.keys.filterMap (fun k => l.dlookup k) = l.map Sigma.snd := by
  induction l with
  | nil => rfl
  | cons e t ih =>
    obtain ⟨k, v⟩ := e
    have hnd := List.nodupKeys_cons.mp hl
    have htail : t.keys.filterMap (fun x => List.dlookup x (⟨k, v⟩ :: t))
        = t.keys.filterMap (fun x => List.dlookup x t) := by
      apply List.filterMap_congr
      intro x hx
      have hne : x ≠ k := fun hxk => hnd.1 (hxk ▸ hx)
      exact List.dlookup_cons_ne t ⟨k, v⟩ hne
    rw [List.keys_cons, List.filterMap_cons, List.dlookup_cons_eq, List.map_cons, htail,
      ih hnd.2]

/-- Up to order, the loop yields exactly the records of the map, each as often
as it is stored. -/
theorem rangeAppend_multiset (db : AssetDB) (order : List String)
    (h : IsRangeOrder db order) :
    ((rangeAppend db order : List Account) : Multiset Account)
      = db.entries.map Sigma.snd := by
  rw [rangeAppend_eq_filterMap]
  revert h
  refine Finmap.induction_on db ?_
  intro al h
  have hperm : order.Perm al.keys := by
    apply List.perm_of_nodup_nodup_toFinset_eq h.1 al.nodupKeys
    rw [h.2]
    ext k
    rw [Finmap.mem_keys, Finmap.mem_toFinmap, List.mem_toFinset]
    exact AList.mem_keys.symm
  have h1 : (order.filterMap (fun k => Finmap.lookup k (AList.toFinmap al))).Perm
      (al.keys.filterMap (fun k => Finmap.lookup k (AList.toFinmap al))) :=
    hperm.filterMap _
  have h2 : al.keys.filterMap (fun k => Finmap.lookup k (AList.toFinmap al))
      = al.entries.map Sigma.snd := by
    simp only [Finmap.lookup_toFinmap]
    exact keys_filterMap_dlookup al.entries al.nodupKeys
  rw [h2] at h1
  rw [AList.toFinmap_entries]
  exact (Multiset.coe_eq_coe.mpr h1).trans (Multiset.map_coe _ _).symm

/-- Every map has a visiting order. -/
theorem exists_rangeOrder (db : AssetDB) : ∃ order, IsRangeOrder db order :=
  ⟨db.keys.toList, Finset.nodup_toList _, Finset.toList_toFinset _⟩

/-- The store left by creating, in this order, accounts with the dealer ids
`d1`, `d2`, `d3` on the empty map. -/
theorem run_create_three (decode : String → Option Account) (b1 b2 b3 : String)
    (A1 A2 A3 : Account) (h1 : decode b1 = some A1) (h2 : decode b2 = some A2)
    (h3 : decode b3 = some A3) (i1 : A1.DealerID = "d1") (i2 : A2.DealerID = "d2")
    (i3 : A3.DealerID = "d3") :
    run decode assetDB [Op.create b1, Op.create b2, Op.create b3]
      = ((assetDB.insert "d1" A1).insert "d2" A2).insert "d3" A3 := by
  have f1 : A1.DealerID ∉ assetDB := Finmap.not_mem_empty
  have f2 : A2.DealerID ∉ assetDB.insert A1.DealerID A1 := by
    rw [i1, i2]
    intro h
    rcases Finmap.mem_insert.mp h with h | h
    · exact absurd h (by decide)
    · exact Finmap.not_mem_empty h
  have f3 : A3.DealerID ∉ (assetDB.insert A1.DealerID A1).insert A2.DealerID A2 := by
    rw [i1, i2, i3]
    intro h
    rcases Finmap.mem_insert.mp h with h | h
    · exact absurd h (by decide)
    · rcases Finmap.mem_insert.mp h with h | h
      · exact absurd h (by decide)
      · exact Finmap.not_mem_empty h
  simp only [run, List.foldl_cons, List.foldl_nil, step]
  rw [AddAccount_created decode assetDB b1 A1 h1 f1]
  simp only []
  rw [AddAccount_created decode _ b2 A2 h2 f2]
  simp only []
  rw [AddAccount_created decode _ b3 A3 h3 f3, i1, i2, i3]

/-! ## Delete, list and history -/

/-- C9: every map has a visiting order, and along every visiting order list
answers 200 with a sequence that has one element per key, the i-th element
being the record stored under the i-th visited key, so that up to order it is
exactly the records of the map, and a record is listed exactly when it is
stored under some key.  On the empty map the sequence is empty, with status
200.  After creating accounts with the dealer ids `d1`, `d2`, `d3` on the
empty map the sequence is a permutation of those three accounts. -/
theorem list_returns_records (s : AssetDB) :
    (∃ order, IsRangeOrder s order) ∧
      (∀ order, IsRangeOrder s order →
        ∃ l, ListAllAccounts s order = (s, ⟨200, Body.accounts l⟩) ∧
          l.length = s.keys.card ∧
          l.map some = order.map (fun k => s.lookup k) ∧
          (l : Multiset Account) = s.entries.map Sigma.snd ∧
          ∀ a, a ∈ l ↔ ∃ k, s.lookup k = some a) ∧
      (∀ order, IsRangeOrder assetDB order →
        ListAllAccounts assetDB order = (assetDB, ⟨200, Body.accounts []⟩)) ∧
      (∀ (decode : String → Option Account) (b1 b2 b3 : String) (A1 A2 A3 : Account),
        decode b1 = some A1 → decode b2 = some A2 → decode b3 = some A3 →
        A1.DealerID = "d1" → A2.DealerID = "d2" → A3.DealerID = "d3" →
        ∀ order,
          IsRangeOrder (run decode assetDB [Op.create b1, Op.create b2, Op.create b3]) order →
          ∃ l, (ListAllAccounts
              (run decode assetDB [Op.create b1, Op.create b2, Op.create b3]) order).2
              = ⟨200, Body.accounts l⟩ ∧
            l.Perm [A1, A2, A3]) := by
  refine ⟨exists_rangeOrder s, ?_, ?_, ?_⟩
  · intro order horder
    refine ⟨rangeAppend s order, rfl, rangeAppend_length s order horder,
      rangeAppend_map_some s order horder, rangeAppend_multiset s order horder, ?_⟩
    intro a
    have hmap := rangeAppend_map_some s order horder
    constructor
    · intro ha
      have h1 : some a ∈ (rangeAppend s order).map some := List.mem_map_of_mem _ ha
      rw [hmap] at h1
      obtain ⟨k, _, hk⟩ := List.mem_map.mp h1
      exact ⟨k, hk⟩
    · rintro ⟨k, hk⟩
      have hkmem : k ∈ order := by
        have h1 : k ∈ s.keys := Finmap.mem_keys.mpr (Finmap.mem_of_lookup_eq_some hk)
        rw [← horder.2] at h1
        exact List.mem_toFinset.mp h1
      have h2 : some a ∈ order.map (fun k => s.lookup k) :=
        List.mem_map.mpr ⟨k, hkmem, hk⟩
      rw [← hmap] at h2
      obtain ⟨b, hb, hab⟩ := List.mem_map.mp h2
      exact (Option.some.inj hab) ▸ hb
  · intro order horder
    have hlen := rangeAppend_length assetDB order horder
    have hnil : rangeAppend assetDB order = [] := by
      apply List.eq_nil_of_length_eq_zero
      rw [hlen]
      rfl
    simp [ListAllAccounts, hnil, StatusOK]
  · intro decode b1 b2 b3 A1 A2 A3 h1 h2 h3 i1 i2 i3 order
    rw [run_create_three decode b1 b2 b3 A1 A2 A3 h1 h2 h3 i1 i2 i3]
    intro horder
    refine ⟨rangeAppend _ order, rfl, ?_⟩
    have hms := rangeAppend_multiset _ order horder
    have n1 : "d1" ∉ assetDB := Finmap.not_mem_empty
    have n2 : "d2" ∉ assetDB.insert "d1" A1 := by
      intro h
      rcases Finmap.mem_insert.mp h with h | h
      · exact absurd h (by decide)
      · exact Finmap.not_mem_empty h
    have n3 : "d3" ∉ (assetDB.insert "d1" A1).insert "d2" A2 := by
      intro h
      rcases Finmap.mem_insert.mp h with h | h
      · exact absurd h (by decide)
      · rcases Finmap.mem_insert.mp h with h | h
        · exact absurd h (by decide)
        · exact Finmap.not_mem_empty h
    rw [Finmap.insert_entries_of_neg n3, Finmap.insert_entries_of_neg n2,
      Finmap.insert_entries_of_neg n1] at hms
    have hent : (assetDB : AssetDB).entries = 0 := rfl
    rw [hent] at hms
    simp only [Multiset.map_cons, Multiset.map_zero] at hms
    have hcoe : (A3 ::ₘ A2 ::ₘ A1 ::ₘ (0 : Multiset Account))
        = (([A3, A2, A1] : List Account) : Multiset Account) := rfl
    rw [hcoe] at hms
    exact (Multiset.coe_eq_coe.mp hms).trans (List.reverse_perm [A1, A2, A3])

/-- C10: for an existing key, history answers 200 with the one-element
sequence of the record stored under the key, the same record that get answers
with on the same store. -/
theorem history_is_current_record (s : AssetDB) (id : String) (hmem : id ∈ s) :
    ∃ a, s.lookup id = some a ∧
      (GetAccount s id).2 = ⟨200, Body.account a⟩ ∧
      (MockTransactionHistory s id).2 = ⟨200, Body.accounts [a]⟩ ∧
      [a].length = 1 := by
  obtain ⟨a, ha⟩ := Finmap.mem_iff.mp hmem
  refine ⟨a, ha, ?_, ?_, rfl⟩
  · rw [GetAccount_found s id a ha]
  · rw [History_found s id a ha]

theorem history_is_current_record_witness :
    ∃ a, (assetDB.insert "D1" (sample "D1" 100)).lookup "D1" = some a ∧
      (GetAccount (assetDB.insert "D1" (sample "D1" 100)) "D1").2 = ⟨200, Body.account a⟩ ∧
      (MockTransactionHistory (assetDB.insert "D1" (sample "D1" 100)) "D1").2
        = ⟨200, Body.accounts [a]⟩ ∧
      [a].length = 1 :=
  history_is_current_record (assetDB.insert "D1" (sample "D1" 100)) "D1" (by decide)

/-! ## Frame properties -/

/-- Two maps that agree on the lookup of a key agree on its membership. -/
theorem mem_congr_of_lookup {s1 s2 : AssetDB} {k : String}
    (h : s1.lookup k = s2.lookup k) : k ∈ s1 ↔ k ∈ s2 := by
  rw [← Finmap.lookup_isSome, ← Finmap.lookup_isSome, h]

/-- A create leaves the entry of every key other than the decoded dealer id. -/
theorem AddAccount_lookup_other (decode : String → Option Account) (s : AssetDB)
    (body : String) (A : Account) (hdec : decode body = some A) (k : String)
    (hne : k ≠ A.DealerID) : (AddAccount decode s body).1.lookup k = s.lookup k := by
  by_cases hmem : A.DealerID ∈ s
  · rw [AddAccount_conflict decode s body A hdec hmem]
  · rw [AddAccount_created decode s body A hdec hmem]
    exact Finmap.lookup_insert_of_ne s hne

/-- An update leaves the entry of every key other than the path id. -/
theorem UpdateAccount_lookup_other (decode : String → Option Account) (s : AssetDB)
    (id body : String) (k : String) (hne : k ≠ id) :
    (UpdateAccount decode s id body).1.lookup k = s.lookup k := by
  cases hdec : decode body with
  | none => rw [UpdateAccount_bad decode s id body hdec]
  | some B =>
    by_cases hmem : id ∈ s
    · rw [UpdateAccount_ok decode s id body B hdec hmem]
      exact Finmap.lookup_insert_of_ne s hne
    · rw [UpdateAccount_missing decode s id body B hdec hmem]

/-- A delete leaves the entry of every key other than the path id. -/
theorem DeleteAccount_lookup_other (s : AssetDB) (id : String) (k : String) (hne : k ≠ id) :
    (DeleteAccount s id).1.lookup k = s.lookup k := by
  by_cases hmem : id ∈ s
  · rw [DeleteAccount_ok s id hmem]
    exact Finmap.lookup_erase_ne hne
  · rw [DeleteAccount_missing s id hmem]

/-- C11: get, list and history return the store they were given, whether they
answer 200 or 404. -/
theorem reads_do_not_mutate (s : AssetDB) (id : String) (order : List String) :
    (GetAccount s id).1 = s ∧
      (ListAllAccounts s order).1 = s ∧
      (MockTransactionHistory s id).1 = s ∧
      ((GetAccount s id).2.status = 200 ∨ (GetAccount s id).2.status = 404) ∧
      ((MockTransactionHistory s id).2.status = 200 ∨
        (MockTransactionHistory s id).2.status = 404) := by
  by_cases hmem : id ∈ s
  · obtain ⟨a, ha⟩ := Finmap.mem_iff.mp hmem
    rw [GetAccount_found s id a ha, History_found s id a ha]
    exact ⟨rfl, rfl, rfl, Or.inl rfl, Or.inl rfl⟩
  · rw [GetAccount_missing s id hmem, History_missing s id hmem]
    exact ⟨rfl, rfl, rfl, Or.inr rfl, Or.inr rfl⟩

/-- C12: an update of an existing key with a body that decodes to `B` leaves
the set of keys as it was and stores `B` under the path id; when
`B.DealerID` differs from the path id, the entry under `B.DealerID` is what it
was (none is inserted, none is changed). -/
theorem update_never_rekeys (decode : String → Option Account) (s : AssetDB)
    (id body : String) (B : Account) (hdec : decode body = some B) (hmem : id ∈ s) :
    (UpdateAccount decode s id body).1.keys = s.keys ∧
      (UpdateAccount decode s id body).1.lookup id = some B ∧
      (B.DealerID ≠ id →
        (UpdateAccount decode s id body).1.lookup B.DealerID = s.lookup B.DealerID ∧
          (B.DealerID ∈ (UpdateAccount decode s id body).1 ↔ B.DealerID ∈ s)) := by
  refine ⟨?_, ?_, ?_⟩
  · rw [UpdateAccount_ok decode s id body B hdec hmem]
    ext k
    rw [Finmap.mem_keys, Finmap.mem_keys, Finmap.mem_insert]
    constructor
    · rintro (h | h)
      · exact h ▸ hmem
      · exact h
    · exact fun h => Or.inr h
  · rw [UpdateAccount_ok decode s id body B hdec hmem]
    exact Finmap.lookup_insert s
  · intro hne
    have h := UpdateAccount_lookup_other decode s id body B.DealerID hne
    exact ⟨h, mem_congr_of_lookup h⟩

theorem update_never_rekeys_witness :
    (UpdateAccount (decodeOnly (sample "D2" 5))
        (assetDB.insert "D1" (sample "D1" 100)) "D1" "ok").1.keys
        = (assetDB.insert "D1" (sample "D1" 100)).keys ∧
      (UpdateAccount (decodeOnly (sample "D2" 5))
        (assetDB.insert "D1" (sample "D1" 100)) "D1" "ok").1.lookup "D1"
        = some (sample "D2" 5) ∧
      ((sample "D2" 5).DealerID ≠ "D1" →
        (UpdateAccount (decodeOnly (sample "D2" 5))
          (assetDB.insert "D1" (sample "D1" 100)) "D1" "ok").1.lookup (sample "D2" 5).DealerID
          = (assetDB.insert "D1" (sample "D1" 100)).lookup (sample "D2" 5).DealerID ∧
        ((sample "D2" 5).DealerID ∈ (UpdateAccount (decodeOnly (sample "D2" 5))
          (assetDB.insert "D1" (sample "D1" 100)) "D1" "ok").1
          ↔ (sample "D2" 5).DealerID ∈ assetDB.insert "D1" (sample "D1" 100))) :=
  update_never_rekeys (decodeOnly (sample "D2" 5)) (assetDB.insert "D1" (sample "D1" 100))
    "D1" "ok" (sample "D2" 5) (by decide) (by decide)

/-- C19: for every key `k` other than the target of a mutating call (the
decoded dealer id for create, the path id for update and delete), `k` is a key
of the resulting store exactly when it was one, and the entry under `k` is
unchanged. -/
theorem mutation_touches_target_only (decode : String → Option Account) (s : AssetDB)
    (k : String) :
    (∀ body A, decode body = some A → k ≠ A.DealerID →
      ((k ∈ (AddAccount decode s body).1 ↔ k ∈ s) ∧
        (AddAccount decode s body).1.lookup k = s.lookup k)) ∧
      (∀ id body, k ≠ id →
        ((k ∈ (UpdateAccount decode s id body).1 ↔ k ∈ s) ∧
          (UpdateAccount decode s id body).1.lookup k = s.lookup k)) ∧
      (∀ id, k ≠ id →
        ((k ∈ (DeleteAccount s id).1 ↔ k ∈ s) ∧
          (DeleteAccount s id).1.lookup k = s.lookup k)) := by
  refine ⟨?_, ?_, ?_⟩
  · intro body A hdec hne
    have h := AddAccount_lookup_other decode s body A hdec k hne
    exact ⟨mem_congr_of_lookup h, h⟩
  · intro id body hne
    have h := UpdateAccount_lookup_other decode s id body k hne
    exact ⟨mem_congr_of_lookup h, h⟩
  · intro id hne
    have h := DeleteAccount_lookup_other s id k hne
    exact ⟨mem_congr_of_lookup h, h⟩

/-! ## Keys and dealer id fields -/

/-- Well-keyedness read through lookups. -/
theorem wellKeyed_iff_lookup (db : AssetDB) :
    WellKeyed db ↔ ∀ k a, db.lookup k = some a → a.DealerID = k := by
  constructor
  · intro h k a hk
    exact h ⟨k, a⟩ (Finmap.lookup_eq_some_iff.mp hk)
  · intro h e he
    obtain ⟨k, a⟩ := e
    exact h k a (Finmap.lookup_eq_some_iff.mpr he)

/-- Uniqueness of dealer id fields read through lookups. -/
theorem uniqueDealerIDs_iff_lookup (db : AssetDB) :
    UniqueDealerIDs db ↔
      ∀ k1 k2 a1 a2, db.lookup k1 = some a1 → db.lookup k2 = some a2 →
        a1.DealerID = a2.DealerID → k1 = k2 := by
  constructor
  · intro h k1 k2 a1 a2 h1 h2 hid
    exact h ⟨k1, a1⟩ (Finmap.lookup_eq_some_iff.mp h1) ⟨k2, a2⟩
      (Finmap.lookup_eq_some_iff.mp h2) hid
  · intro h e1 he1 e2 he2 hid
    obtain ⟨k1, a1⟩ := e1
    obtain ⟨k2, a2⟩ := e2
    exact h k1 k2 a1 a2 (Finmap.lookup_eq_some_iff.mpr he1)
      (Finmap.lookup_eq_some_iff.mpr he2) hid

/-- In a well-keyed store the dealer id fields are pairwise distinct. -/
theorem WellKeyed.unique {db : AssetDB} (h : WellKeyed db) : UniqueDealerIDs db := by
  rw [uniqueDealerIDs_iff_lookup]
  rw [wellKeyed_iff_lookup] at h
  intro k1 k2 a1 a2 h1 h2 hid
  rw [← h k1 a1 h1, ← h k2 a2 h2, hid]

/-- Storing a record under its own dealer id keeps a store well-keyed. -/
theorem WellKeyed.insert {db : AssetDB} (h : WellKeyed db) (k : String) (a : Account)
    (hk : a.DealerID = k) : WellKeyed (db.insert k a) := by
  rw [wellKeyed_iff_lookup] at h ⊢
  intro k2 a2 h2
  by_cases hkk : k2 = k
  · subst hkk
    rw [Finmap.lookup_insert] at h2
    exact (Option.some.inj h2) ▸ hk
  · rw [Finmap.lookup_insert_of_ne db hkk] at h2
    exact h k2 a2 h2

/-- Removing a key keeps a store well-keyed. -/
theorem WellKeyed.erase {db : AssetDB} (h : WellKeyed db) (k : String) :
    WellKeyed (db.erase k) := by
  rw [wellKeyed_iff_lookup] at h ⊢
  intro k2 a2 h2
  by_cases hkk : k2 = k
  · subst hkk
    rw [Finmap.lookup_erase] at h2
    exact absurd h2 (by simp)
  · rw [Finmap.lookup_erase_ne hkk] at h2
    exact h k2 a2 h2

/-- Create keeps a store well-keyed. -/
theorem WellKeyed.addAccount {db : AssetDB} (h : WellKeyed db)
    (decode : String → Option Account) (body : String) :
    WellKeyed (AddAccount decode db body).1 := by
  cases hdec : decode body with
  | none => rw [AddAccount_bad decode db body hdec]; exact h
  | some A =>
    by_cases hmem : A.DealerID ∈ db
    · rw [AddAccount_conflict decode db body A hdec hmem]; exact h
    · rw [AddAccount_created decode db body A hdec hmem]
      exact h.insert A.DealerID A rfl

/-- Delete keeps a store well-keyed. -/
theorem WellKeyed.deleteAccount {db : AssetDB} (h : WellKeyed db) (id : String) :
    WellKeyed (DeleteAccount db id).1 := by
  by_cases hmem : id ∈ db
  · rw [DeleteAccount_ok db id hmem]; exact h.erase id
  · rw [DeleteAccount_missing db id hmem]; exact h

/-- A handler call that keeps the key keeps a store well-keyed. -/
theorem WellKeyed.step {db : AssetDB} (h : WellKeyed db)
    (decode : String → Option Account) (op : Op) (hop : op.keepsKey decode) :
    WellKeyed (step decode db op).1 := by
  cases op with
  | create reqBody => exact h.addAccount decode reqBody
  | get dealerID =>
    simp only [AccountAPI.step, GetAccount]
    cases db.lookup dealerID <;> exact h
  | list order => exact h
  | update dealerID reqBody =>
    simp only [AccountAPI.step]
    cases hdec : decode reqBody with
    | none => rw [UpdateAccount_bad decode db dealerID reqBody hdec]; exact h
    | some B =>
      by_cases hmem : dealerID ∈ db
      · rw [UpdateAccount_ok decode db dealerID reqBody B hdec hmem]
        exact h.insert dealerID B (hop B hdec)
      · rw [UpdateAccount_missing decode db dealerID reqBody B hdec hmem]; exact h
  | delete dealerID => exact h.deleteAccount dealerID
  | history dealerID =>
    simp only [AccountAPI.step, MockTransactionHistory]
    cases db.lookup dealerID <;> exact h

/-- A run of handler calls that keep the key keeps a store well-keyed. -/
theorem WellKeyed.run (decode : String → Option Account) (ops : List Op) :
    ∀ db : AssetDB, WellKeyed db → (∀ op ∈ ops, op.keepsKey decode) →
      WellKeyed (run decode db ops) := by
  induction ops with
  | nil => intro db h _; exact h
  | cons op rest ih =>
    intro db h hops
    exact ih _ (h.step decode op (hops op (List.mem_cons_self _ _)))
      (fun o ho => hops o (List.mem_cons_of_mem _ ho))

/-- The empty map is well-keyed. -/
theorem wellKeyed_assetDB : WellKeyed assetDB := by
  intro e he
  exact absurd he (Multiset.not_mem_zero e)

/-- A create or a delete keeps the key. -/
theorem Op.keepsKey_of_isCreateOrDelete (decode : String → Option Account) (op : Op)
    (h : op.isCreateOrDelete) : op.keepsKey decode := by
  cases op <;> trivial

/-- C13, as stated, fails: after creating `d1` and `d2` on the empty map, an
update of `d2` with a payload that carries the dealer id `d1` leaves two
entries, under the keys `d1` and `d2`, whose dealer id field is `d1`. -/
theorem update_duplicates_dealerID :
    (run (decodeTable [("a", sample "d1" 1), ("b", sample "d2" 2)]) assetDB
        [Op.create "a", Op.create "b", Op.update "d2" "a"]).lookup "d1"
        = some (sample "d1" 1) ∧
      (run (decodeTable [("a", sample "d1" 1), ("b", sample "d2" 2)]) assetDB
        [Op.create "a", Op.create "b", Op.update "d2" "a"]).lookup "d2"
        = some (sample "d1" 1) ∧
      ¬ UniqueDealerIDs
        (run (decodeTable [("a", sample "d1" 1), ("b", sample "d2" 2)]) assetDB
          [Op.create "a", Op.create "b", Op.update "d2" "a"]) := by
  decide

/-- C13, amended: every store reachable from the empty map by handler calls
holds each key once; and when every update in the run carries in its payload
the dealer id of its path, every record is stored under its own dealer id, so
no two entries under different keys hold the same dealer id field. -/
theorem unique_dealerIDs_reachable (decode : String → Option Account) (ops : List Op)
    (hkeep : ∀ op ∈ ops, op.keepsKey decode) :
    UniqueDealerIDs (run decode assetDB ops) ∧
      WellKeyed (run decode assetDB ops) ∧
      ∀ ops2 : List Op, (run decode assetDB ops2).entries.keys.Nodup := by
  have h := WellKeyed.run decode ops assetDB wellKeyed_assetDB hkeep
  exact ⟨h.unique, h, fun ops2 => (run decode assetDB ops2).nodupKeys.nodup_keys⟩

theorem unique_dealerIDs_reachable_witness :
    UniqueDealerIDs (run (decodeTable [("a", sample "d1" 1), ("b", sample "d2" 2)]) assetDB
        [Op.create "a", Op.create "b", Op.update "d2" "b", Op.delete "d1", Op.get "d2"]) ∧
      WellKeyed (run (decodeTable [("a", sample "d1" 1), ("b", sample "d2" 2)]) assetDB
        [Op.create "a", Op.create "b", Op.update "d2" "b", Op.delete "d1", Op.get "d2"]) ∧
      ∀ ops2 : List Op,
        (run (decodeTable [("a", sample "d1" 1), ("b", sample "d2" 2)]) assetDB
          ops2).entries.keys.Nodup :=
  unique_dealerIDs_reachable (decodeTable [("a", sample "d1" 1), ("b", sample "d2" 2)])
    [Op.create "a", Op.create "b", Op.update "d2" "b", Op.delete "d1", Op.get "d2"]
    (by
      intro op hop
      simp only [List.mem_cons, List.mem_singleton, List.not_mem_nil, or_false] at hop
      rcases hop with h | h | h | h | h <;> subst h
      · trivial
      · trivial
      · intro b hb
        have hb2 : b = sample "d2" 2 := by
          simpa [decodeTable, List.lookup] using hb.symm
        rw [hb2]
        rfl
      · trivial
      · trivial)

/-- C18: create and delete keep a store well-keyed, whether they succeed or
not; an update of an existing key with a body that decodes to `B` leaves a
well-keyed store well-keyed exactly when `B.DealerID` is the path id; every
store reached from the empty map by creates and deletes alone is well-keyed;
and an update of the well-keyed store holding `D1` with a payload carrying
`D2` makes get of `D1` answer a record whose dealer id is not `D1`. -/
theorem wellKeyed_preservation (decode : String → Option Account) :
    (∀ s body, WellKeyed s → WellKeyed (AddAccount decode s body).1) ∧
      (∀ s id, WellKeyed s → WellKeyed (DeleteAccount s id).1) ∧
      (∀ s id body B, WellKeyed s → decode body = some B → id ∈ s →
        (WellKeyed (UpdateAccount decode s id body).1 ↔ B.DealerID = id)) ∧
      (∀ ops : List Op, (∀ op ∈ ops, op.isCreateOrDelete) →
        WellKeyed (run decode assetDB ops)) ∧
      (WellKeyed (assetDB.insert "D1" (sample "D1" 100)) ∧
        (GetAccount (UpdateAccount (decodeOnly (sample "D2" 5))
          (assetDB.insert "D1" (sample "D1" 100)) "D1" "ok").1 "D1").2
          = ⟨200, Body.account (sample "D2" 5)⟩ ∧
        (sample "D2" 5).DealerID ≠ "D1") := by
  refine ⟨?_, ?_, ?_, ?_, ?_⟩
  · intro s body h
    exact h.addAccount decode body
  · intro s id h
    exact h.deleteAccount id
  · intro s id body B h hdec hmem
    rw [UpdateAccount_ok decode s id body B hdec hmem]
    constructor
    · intro hw
      exact (wellKeyed_iff_lookup _).mp hw id B (Finmap.lookup_insert s)
    · intro hid
      exact h.insert id B hid
  · intro ops hops
    exact WellKeyed.run decode ops assetDB wellKeyed_assetDB
      (fun op hop => Op.keepsKey_of_isCreateOrDelete decode op (hops op hop))
  · decide

/-! ## Serial runs of creates -/

/-- A record is listed exactly when it is stored under some key. -/
theorem mem_rangeAppend_iff (db : AssetDB) (order : List String)
    (h : IsRangeOrder db order) (a : Account) :
    a ∈ rangeAppend db order ↔ ∃ k, db.lookup k = some a := by
  rw [rangeAppend_eq_filterMap, List.mem_filterMap]
  constructor
  · rintro ⟨k, _, hk⟩
    exact ⟨k, hk⟩
  · rintro ⟨k, hk⟩
    refine ⟨k, ?_, hk⟩
    have h1 : k ∈ db.keys := Finmap.mem_keys.mpr (Finmap.mem_of_lookup_eq_some hk)
    rw [← h.2] at h1
    exact List.mem_toFinset.mp h1

/-- Inserting under a key that is absent adds one key. -/
theorem card_keys_insert_of_not_mem (db : AssetDB) (k : String) (a : Account)
    (h : k ∉ db) : (db.insert k a).keys.card = db.keys.card + 1 := by
  have hk : (db.insert k a).keys = Insert.insert k db.keys := by
    ext x
    rw [Finmap.mem_keys, Finmap.mem_insert, Finset.mem_insert, Finmap.mem_keys]
  rw [hk, Finset.card_insert_of_not_mem (fun hx => h (Finmap.mem_keys.mp hx))]

/-- Creates of accounts with pairwise distinct dealer ids, all absent from the
store: every call answers 201, each account ends up under its dealer id, every
other entry is as before, and the store gains one key per call. -/
theorem run_creates_distinct (decode : String → Option Account) (enc : Account → String)
    (accs : List Account) :
    ∀ s : AssetDB, (∀ a ∈ accs, decode (enc a) = some a) →
      (accs.map Account.DealerID).Nodup → (∀ a ∈ accs, a.DealerID ∉ s) →
      responses decode s (accs.map (fun a => Op.create (enc a)))
          = accs.map (fun a => (⟨201, Body.account a⟩ : Response)) ∧
        (∀ a ∈ accs,
          (run decode s (accs.map (fun a => Op.create (enc a)))).lookup a.DealerID = some a) ∧
        (∀ k, k ∉ accs.map Account.DealerID →
          (run decode s (accs.map (fun a => Op.create (enc a)))).lookup k = s.lookup k) ∧
        (run decode s (accs.map (fun a => Op.create (enc a)))).keys.card
          = s.keys.card + accs.length := by
  induction accs with
  | nil =>
    intro s _ _ _
    exact ⟨rfl, fun a ha => absurd ha (List.not_mem_nil a), fun k _ => rfl, rfl⟩
  | cons a rest ih =>
    intro s henc hnodup hfresh
    have ha : decode (enc a) = some a := henc a (List.mem_cons_self _ _)
    have hfa : a.DealerID ∉ s := hfresh a (List.mem_cons_self _ _)
    rw [List.map_cons, List.nodup_cons] at hnodup
    have hstep : step decode s (Op.create (enc a))
        = (s.insert a.DealerID a, ⟨201, Body.account a⟩) :=
      AddAccount_created decode s (enc a) a ha hfa
    have hfresh2 : ∀ b ∈ rest, b.DealerID ∉ s.insert a.DealerID a := by
      intro b hb hmem
      rcases Finmap.mem_insert.mp hmem with h | h
      · exact hnodup.1 (h ▸ List.mem_map_of_mem _ hb)
      · exact hfresh b (List.mem_cons_of_mem _ hb) h
    obtain ⟨ih1, ih2, ih3, ih4⟩ := ih (s.insert a.DealerID a)
      (fun b hb => henc b (List.mem_cons_of_mem _ hb)) hnodup.2 hfresh2
    have hrun : run decode s ((a :: rest).map (fun a => Op.create (enc a)))
        = run decode (s.insert a.DealerID a) (rest.map (fun a => Op.create (enc a))) := by
      simp only [run, List.map_cons, List.foldl_cons, hstep]
    have hresp : responses decode s ((a :: rest).map (fun a => Op.create (enc a)))
        = ⟨201, Body.account a⟩
          :: responses decode (s.insert a.DealerID a)
            (rest.map (fun a => Op.create (enc a))) := by
      simp only [List.map_cons, responses, hstep]
    rw [hrun, hresp, ih1]
    refine ⟨rfl, ?_, ?_, ?_⟩
    · intro b hb
      rcases List.mem_cons.mp hb with h | h
      · subst h
        rw [ih3 _ hnodup.1]
        exact Finmap.lookup_insert s
      · exact ih2 b h
    · intro k hk
      rw [List.map_cons, List.mem_cons, not_or] at hk
      rw [ih3 k hk.2]
      exact Finmap.lookup_insert_of_ne s hk.1
    · rw [ih4, card_keys_insert_of_not_mem s _ a hfa, List.length_cons]
      omega

/-- C14: for accounts with pairwise distinct dealer ids, all absent from the
store, creating them in any order makes every call answer 201, leaves the
same store whatever the order, and every list call on that store returns a
sequence containing all of them (one element per old key and per account). -/
theorem creates_in_any_order (decode : String → Option Account) (enc : Account → String)
    (s : AssetDB) (accs accs2 : List Account)
    (henc : ∀ a ∈ accs, decode (enc a) = some a)
    (hdistinct : (accs.map Account.DealerID).Nodup)
    (hfresh : ∀ a ∈ accs, a.DealerID ∉ s)
    (hperm : accs2.Perm accs) :
    responses decode s (accs2.map (fun a => Op.create (enc a)))
        = accs2.map (fun a => (⟨201, Body.account a⟩ : Response)) ∧
      run decode s (accs2.map (fun a => Op.create (enc a)))
        = run decode s (accs.map (fun a => Op.create (enc a))) ∧
      ∀ order,
        IsRangeOrder (run decode s (accs2.map (fun a => Op.create (enc a)))) order →
        ∃ l, (ListAllAccounts (run decode s (accs2.map (fun a => Op.create (enc a))))
            order).2 = ⟨200, Body.accounts l⟩ ∧
          (∀ a ∈ accs, a ∈ l) ∧
          l.length = s.keys.card + accs.length := by
  have henc2 : ∀ a ∈ accs2, decode (enc a) = some a :=
    fun a ha => henc a (hperm.subset ha)
  have hdistinct2 : (accs2.map Account.DealerID).Nodup :=
    (hperm.map Account.DealerID).nodup_iff.mpr hdistinct
  have hfresh2 : ∀ a ∈ accs2, a.DealerID ∉ s := fun a ha => hfresh a (hperm.subset ha)
  obtain ⟨r1, r2, r3, _⟩ := run_creates_distinct decode enc accs s henc hdistinct hfresh
  obtain ⟨q1, q2, q3, q4⟩ := run_creates_distinct decode enc accs2 s henc2 hdistinct2 hfresh2
  refine ⟨q1, ?_, ?_⟩
  · apply Finmap.ext_lookup
    intro k
    by_cases hk : k ∈ accs.map Account.DealerID
    · obtain ⟨a, ha, hak⟩ := List.mem_map.mp hk
      rw [← hak, r2 a ha, q2 a (hperm.symm.subset ha)]
    · have hk2 : k ∉ accs2.map Account.DealerID :=
        fun h => hk ((hperm.map Account.DealerID).subset h)
      rw [r3 k hk, q3 k hk2]
  · intro order horder
    refine ⟨rangeAppend _ order, rfl, ?_, ?_⟩
    · intro a ha
      exact (mem_rangeAppend_iff _ order horder a).mpr
        ⟨a.DealerID, q2 a (hperm.symm.subset ha)⟩
    · rw [rangeAppend_length _ order horder, q4, hperm.length_eq]

theorem creates_in_any_order_witness :
    responses (decodeTable [("a", sample "d1" 1), ("b", sample "d2" 2)]) assetDB
        ([sample "d2" 2, sample "d1" 1].map
          (fun a => Op.create (if a.DealerID = "d1" then "a" else "b")))
        = [sample "d2" 2, sample "d1" 1].map
          (fun a => (⟨201, Body.account a⟩ : Response)) ∧
      run (decodeTable [("a", sample "d1" 1), ("b", sample "d2" 2)]) assetDB
        ([sample "d2" 2, sample "d1" 1].map
          (fun a => Op.create (if a.DealerID = "d1" then "a" else "b")))
        = run (decodeTable [("a", sample "d1" 1), ("b", sample "d2" 2)]) assetDB
          ([sample "d1" 1, sample "d2" 2].map
            (fun a => Op.create (if a.DealerID = "d1" then "a" else "b"))) ∧
      ∀ order,
        IsRangeOrder (run (decodeTable [("a", sample "d1" 1), ("b", sample "d2" 2)]) assetDB
          ([sample "d2" 2, sample "d1" 1].map
            (fun a => Op.create (if a.DealerID = "d1" then "a" else "b")))) order →
        ∃ l, (ListAllAccounts
            (run (decodeTable [("a", sample "d1" 1), ("b", sample "d2" 2)]) assetDB
              ([sample "d2" 2, sample "d1" 1].map
                (fun a => Op.create (if a.DealerID = "d1" then "a" else "b"))))
            order).2 = ⟨200, Body.accounts l⟩ ∧
          (∀ a ∈ [sample "d1" 1, sample "d2" 2], a ∈ l) ∧
          l.length = (assetDB : AssetDB).keys.card + [sample "d1" 1, sample "d2" 2].length :=
  creates_in_any_order (decodeTable [("a", sample "d1" 1), ("b", sample "d2" 2)])
    (fun a => if a.DealerID = "d1" then "a" else "b") assetDB
    [sample "d1" 1, sample "d2" 2] [sample "d2" 2, sample "d1" 1]
    (by decide) (by decide) (by decide) (List.Perm.swap _ _ _)

/-- Creates that all carry a dealer id already in the store: every call
answers 409 and the store stays as it is. -/
theorem run_creates_existing (decode : String → Option Account) (id : String)
    (bs : List String) :
    ∀ s : AssetDB, id ∈ s → (∀ b ∈ bs, ∃ a, decode b = some a ∧ a.DealerID = id) →
      responses decode s (bs.map Op.create)
          = List.replicate bs.length ⟨409, Body.text "Account already exists"⟩ ∧
        run decode s (bs.map Op.create) = s := by
  induction bs with
  | nil => intro s _ _; exact ⟨rfl, rfl⟩
  | cons b rest ih =>
    intro s hmem hall
    obtain ⟨a, hdec, hid⟩ := hall b (List.mem_cons_self _ _)
    have hstep : step decode s (Op.create b)
        = (s, ⟨409, Body.text "Account already exists"⟩) :=
      AddAccount_conflict decode s b a hdec (hid ▸ hmem)
    obtain ⟨ih1, ih2⟩ := ih s hmem (fun x hx => hall x (List.mem_cons_of_mem _ hx))
    constructor
    · simp only [List.map_cons, responses, hstep, ih1, List.length_cons, List.replicate_succ]
    · simp only [run, List.map_cons, List.foldl_cons, hstep]
      exact ih2

/-- C15: on a store without the key `id`, a serial run of `N ≥ 1` creates whose
decoded accounts all carry the dealer id `id` answers 201 to the first call
and 409 to each of the other `N - 1`, and leaves the first call's account
under `id`. -/
theorem same_id_creates (decode : String → Option Account) (s : AssetDB) (id : String)
    (b0 : String) (bs : List String) (a0 : Account) (hfresh : id ∉ s)
    (h0 : decode b0 = some a0) (hid0 : a0.DealerID = id)
    (hrest : ∀ b ∈ bs, ∃ a, decode b = some a ∧ a.DealerID = id) :
    responses decode s ((b0 :: bs).map Op.create)
        = ⟨201, Body.account a0⟩
          :: List.replicate bs.length ⟨409, Body.text "Account already exists"⟩ ∧
      (responses decode s ((b0 :: bs).map Op.create)).countP (fun r => r.status = 201) = 1 ∧
      (responses decode s ((b0 :: bs).map Op.create)).countP (fun r => r.status = 409)
        = bs.length ∧
      run decode s ((b0 :: bs).map Op.create) = s.insert id a0 ∧
      (run decode s ((b0 :: bs).map Op.create)).lookup id = some a0 := by
  have hstep : step decode s (Op.create b0) = (s.insert id a0, ⟨201, Body.account a0⟩) := by
    have h := AddAccount_created decode s b0 a0 h0 (hid0 ▸ hfresh)
    rw [hid0] at h
    exact h
  have hmem : id ∈ s.insert id a0 := Finmap.mem_insert.mpr (Or.inl rfl)
  obtain ⟨r1, r2⟩ := run_creates_existing decode id bs (s.insert id a0) hmem hrest
  have hresp : responses decode s ((b0 :: bs).map Op.create)
      = ⟨201, Body.account a0⟩
        :: List.replicate bs.length ⟨409, Body.text "Account already exists"⟩ := by
    simp only [List.map_cons, responses, hstep, r1]
  have hrun : run decode s ((b0 :: bs).map Op.create) = s.insert id a0 := by
    simp only [run, List.map_cons, List.foldl_cons, hstep]
    exact r2
  refine ⟨hresp, ?_, ?_, hrun, ?_⟩
  · rw [hresp, List.countP_cons, List.countP_replicate]
    simp
  · rw [hresp, List.countP_cons, List.countP_replicate]
    simp
  · rw [hrun]
    exact Finmap.lookup_insert s

theorem same_id_creates_witness :
    responses (decodeTable [("a", sample "D1" 1), ("b", sample "D1" 2), ("c", sample "D1" 3)])
        assetDB (["a", "b", "c"].map Op.create)
        = ⟨201, Body.account (sample "D1" 1)⟩
          :: List.replicate ["b", "c"].length ⟨409, Body.text "Account already exists"⟩ ∧
      (responses (decodeTable [("a", sample "D1" 1), ("b", sample "D1" 2), ("c", sample "D1" 3)])
        assetDB (["a", "b", "c"].map Op.create)).countP (fun r => r.status = 201) = 1 ∧
      (responses (decodeTable [("a", sample "D1" 1), ("b", sample "D1" 2), ("c", sample "D1" 3)])
        assetDB (["a", "b", "c"].map Op.create)).countP (fun r => r.status = 409)
        = ["b", "c"].length ∧
      run (decodeTable [("a", sample "D1" 1), ("b", sample "D1" 2), ("c", sample "D1" 3)])
        assetDB (["a", "b", "c"].map Op.create) = assetDB.insert "D1" (sample "D1" 1) ∧
      (run (decodeTable [("a", sample "D1" 1), ("b", sample "D1" 2), ("c", sample "D1" 3)])
        assetDB (["a", "b", "c"].map Op.create)).lookup "D1" = some (sample "D1" 1) :=
  same_id_creates (decodeTable [("a", sample "D1" 1), ("b", sample "D1" 2), ("c", sample "D1" 3)])
    assetDB "D1" "a" ["b", "c"] (sample "D1" 1) (by decide) (by decide) (by decide)
    (by
      intro b hb
      simp only [List.mem_cons, List.mem_singleton, List.not_mem_nil, or_false] at hb
      rcases hb with h | h <;> subst h
      · exact ⟨sample "D1" 2, by decide, by decide⟩
      · exact ⟨sample "D1" 3, by decide, by decide⟩)

/-! ## The lock span of a handler call -/

/-- The statements of a handler call have the effect of the handler: the map
they leave and the reply they write are those of `step`. -/
theorem events_refine_step (decode : String → Option Account) (db : AssetDB) (op : Op) :
    applyEvents db (events decode db op) = (step decode db op).1 ∧
      replyOf (events decode db op) = (step decode db op).2 := by
  cases op with
  | create reqBody =>
    simp only [events, step, AddAccountEvents, AddAccount]
    cases decode reqBody with
    | none => exact ⟨rfl, rfl⟩
    | some a =>
      dsimp only
      cases db.lookup a.DealerID <;> exact ⟨rfl, rfl⟩
  | get dealerID =>
    simp only [events, step, GetAccountEvents, GetAccount]
    cases db.lookup dealerID <;> exact ⟨rfl, rfl⟩
  | list order => exact ⟨rfl, rfl⟩
  | update dealerID reqBody =>
    simp only [events, step, UpdateAccountEvents, UpdateAccount]
    cases decode reqBody with
    | none => exact ⟨rfl, rfl⟩
    | some a =>
      dsimp only
      cases db.lookup dealerID <;> exact ⟨rfl, rfl⟩
  | delete dealerID =>
    simp only [events, step, DeleteAccountEvents, DeleteAccount]
    cases db.lookup dealerID <;> exact ⟨rfl, rfl⟩
  | history dealerID =>
    simp only [events, step, MockTransactionHistoryEvents, MockTransactionHistory]
    cases db.lookup dealerID <;> exact ⟨rfl, rfl⟩

/-- Every read and write of `assetDB` in a handler call happens while
`dbMutex` is held. -/
theorem map_access_inside_lock_span (decode : String → Option Account) (db : AssetDB)
    (op : Op) :
    eventsWhile false Event.isMapAccess false (events decode db op) = [] ∧
      eventsWhile true Event.isMapAccess false (events decode db op)
        = (events decode db op).filter Event.isMapAccess := by
  cases op with
  | create reqBody =>
    simp only [events, AddAccountEvents]
    cases decode reqBody with
    | none => exact ⟨rfl, rfl⟩
    | some a =>
      dsimp only
      cases db.lookup a.DealerID <;> exact ⟨rfl, rfl⟩
  | get dealerID =>
    simp only [events, GetAccountEvents]
    cases db.lookup dealerID <;> exact ⟨rfl, rfl⟩
  | list order => exact ⟨rfl, rfl⟩
  | update dealerID reqBody =>
    simp only [events, UpdateAccountEvents]
    cases decode reqBody with
    | none => exact ⟨rfl, rfl⟩
    | some a =>
      dsimp only
      cases db.lookup dealerID <;> exact ⟨rfl, rfl⟩
  | delete dealerID =>
    simp only [events, DeleteAccountEvents]
    cases db.lookup dealerID <;> exact ⟨rfl, rfl⟩
  | history dealerID =>
    simp only [events, MockTransactionHistoryEvents]
    cases db.lookup dealerID <;> exact ⟨rfl, rfl⟩

/-- C17, as stated, fails: a create with a body that does not decode takes the
lock first, then reads the body and writes the 400 reply, and only then
releases the lock; both the read and the write happen while the lock is held. -/
theorem malformed_create_holds_lock :
    decodeOnly (sample "D1" 1) "bad" = none ∧
      events (decodeOnly (sample "D1" 1)) assetDB (Op.create "bad")
        = [Event.lock, Event.readBody, Event.httpError "Invalid data format" 400,
            Event.unlock] ∧
      eventsWhile true Event.isNetwork false
          (events (decodeOnly (sample "D1" 1)) assetDB (Op.create "bad"))
        = [Event.readBody, Event.httpError "Invalid data format" 400] := by
  decide

/-- C17, amended: in every handler call all reading of the request body and
all writing of the response happen while `dbMutex` is held, none outside, and
every call writes a reply there; create and update read and decode the body
there; a call with a body that does not decode takes the lock, reads the
body, writes the 400 reply and releases the lock, with no access to `assetDB`. -/
theorem network_inside_lock_span (decode : String → Option Account) (db : AssetDB)
    (op : Op) :
    eventsWhile false Event.isNetwork false (events decode db op) = [] ∧
      eventsWhile true Event.isNetwork false (events decode db op)
        = (events decode db op).filter Event.isNetwork ∧
      (events decode db op).filter Event.isNetwork ≠ [] ∧
      (∀ body, Event.readBody ∈
          eventsWhile true Event.isNetwork false (events decode db (Op.create body)) ∧
        ∀ id, Event.readBody ∈
          eventsWhile true Event.isNetwork false (events decode db (Op.update id body))) ∧
      (∀ body, decode body = none →
        events decode db (Op.create body)
            = [Event.lock, Event.readBody, Event.httpError "Invalid data format" 400,
                Event.unlock] ∧
          ∀ id, events decode db (Op.update id body)
            = [Event.vars, Event.lock, Event.readBody,
                Event.httpError "Invalid request data" 400, Event.unlock]) := by
  have hspan : eventsWhile false Event.isNetwork false (events decode db op) = [] ∧
      eventsWhile true Event.isNetwork false (events decode db op)
        = (events decode db op).filter Event.isNetwork ∧
      (events decode db op).filter Event.isNetwork ≠ [] := by
    cases op with
    | create reqBody =>
      simp only [events, AddAccountEvents]
      cases decode reqBody with
      | none => exact ⟨rfl, rfl, by simp [Event.isNetwork]⟩
      | some a =>
        dsimp only
        cases db.lookup a.DealerID <;> exact ⟨rfl, rfl, by simp [Event.isNetwork]⟩
    | get dealerID =>
      simp only [events, GetAccountEvents]
      cases db.lookup dealerID <;> exact ⟨rfl, rfl, by simp [Event.isNetwork]⟩
    | list order => exact ⟨rfl, rfl, by simp [events, ListAllAccountsEvents, Event.isNetwork]⟩
    | update dealerID reqBody =>
      simp only [events, UpdateAccountEvents]
      cases decode reqBody with
      | none => exact ⟨rfl, rfl, by simp [Event.isNetwork]⟩
      | some a =>
        dsimp only
        cases db.lookup dealerID <;> exact ⟨rfl, rfl, by simp [Event.isNetwork]⟩
    | delete dealerID =>
      simp only [events, DeleteAccountEvents]
      cases db.lookup dealerID <;> exact ⟨rfl, rfl, by simp [Event.isNetwork]⟩
    | history dealerID =>
      simp only [events, MockTransactionHistoryEvents]
      cases db.lookup dealerID <;> exact ⟨rfl, rfl, by simp [Event.isNetwork]⟩
  refine ⟨hspan.1, hspan.2.1, hspan.2.2, ?_, ?_⟩
  · intro body
    constructor
    · simp only [events, AddAccountEvents]
      cases decode body with
      | none => simp [eventsWhile, Event.isNetwork]
      | some a =>
        dsimp only
        cases db.lookup a.DealerID <;> simp [eventsWhile, Event.isNetwork]
    · intro id
      simp only [events, UpdateAccountEvents]
      cases decode body with
      | none => simp [eventsWhile, Event.isNetwork]
      | some a =>
        dsimp only
        cases db.lookup id <;> simp [eventsWhile, Event.isNetwork]
  · intro body hdec
    constructor
    · simp [events, AddAccountEvents, hdec, StatusBadRequest]
    · intro id
      simp [events, UpdateAccountEvents, hdec, StatusBadRequest]

/-! ## Delete and the records listed afterwards -/

/-- A store is what is left after erasing a key, with the erased record put
back under that key. -/
theorem insert_erase_of_lookup (s : AssetDB) (id : String) (a : Account)
    (ha : s.lookup id = some a) : (s.erase id).insert id a = s := by
  apply Finmap.ext_lookup
  intro x
  by_cases hx : x = id
  · subst hx
    rw [Finmap.lookup_insert, ha]
  · rw [Finmap.lookup_insert_of_ne _ hx, Finmap.lookup_erase_ne hx]

/-- The entries of a store are the erased record together with the entries
left after erasing its key. -/
theorem entries_eq_cons_erase (s : AssetDB) (id : String) (a : Account)
    (ha : s.lookup id = some a) :
    s.entries = (⟨id, a⟩ : Sigma (fun _ : String => Account)) ::ₘ (s.erase id).entries := by
  have h := Finmap.insert_entries_of_neg (a := id) (b := a) (s := s.erase id)
    Finmap.not_mem_erase_self
  rw [insert_erase_of_lookup s id a ha] at h
  exact h

/-- C8, as stated, fails: in the store reached by creating `d1` and `d2` and
updating `d2` with the payload of `d1`, both keys hold the same record; a
delete of `d1` answers 204, and list on the store it leaves, whose only
visiting order is `d2`, still returns the record that was stored under `d1`. -/
theorem deleted_record_still_listed :
    (run (decodeTable [("a", sample "d1" 1), ("b", sample "d2" 2)]) assetDB
        [Op.create "a", Op.create "b", Op.update "d2" "a"]).lookup "d1"
        = some (sample "d1" 1) ∧
      (DeleteAccount (run (decodeTable [("a", sample "d1" 1), ("b", sample "d2" 2)]) assetDB
        [Op.create "a", Op.create "b", Op.update "d2" "a"]) "d1").2
        = ⟨204, Body.empty⟩ ∧
      IsRangeOrder (DeleteAccount
        (run (decodeTable [("a", sample "d1" 1), ("b", sample "d2" 2)]) assetDB
          [Op.create "a", Op.create "b", Op.update "d2" "a"]) "d1").1 ["d2"] ∧
      (ListAllAccounts (DeleteAccount
        (run (decodeTable [("a", sample "d1" 1), ("b", sample "d2" 2)]) assetDB
          [Op.create "a", Op.create "b", Op.update "d2" "a"]) "d1").1 ["d2"]).2
        = ⟨200, Body.accounts [sample "d1" 1]⟩ := by
  decide

/-- C8, amended: a delete of an existing key answers 204 with no body; on the
store it leaves, get of that key answers 404, and every list call visits only
keys other than the deleted one: its result holds, for each visited key, the
record the store held under that key, and is, up to order, the former records
with one occurrence of the deleted record removed.  The deleted record is
still listed exactly when an equal record is stored under another key, which
does not happen in a well-keyed store. -/
theorem delete_removes_key (s : AssetDB) (id : String) (hmem : id ∈ s) :
    (DeleteAccount s id).2 = ⟨204, Body.empty⟩ ∧
      (GetAccount (DeleteAccount s id).1 id).2.status = 404 ∧
      ∀ order, IsRangeOrder (DeleteAccount s id).1 order →
        ∃ l, (ListAllAccounts (DeleteAccount s id).1 order).2 = ⟨200, Body.accounts l⟩ ∧
          id ∉ order ∧
          l.map some = order.map (fun k => s.lookup k) ∧
          l.length + 1 = s.keys.card ∧
          ∀ a, s.lookup id = some a →
            (a ::ₘ (l : Multiset Account) = s.entries.map Sigma.snd ∧
              (a ∈ l ↔ ∃ k, k ≠ id ∧ s.lookup k = some a) ∧
              (WellKeyed s → a ∉ l)) := by
  rw [DeleteAccount_ok s id hmem]
  refine ⟨rfl, ?_, ?_⟩
  · rw [GetAccount_missing _ id Finmap.not_mem_erase_self]
  · intro order horder
    have hnot : id ∉ order := by
      intro h
      have h1 : id ∈ order.toFinset := List.mem_toFinset.mpr h
      rw [horder.2] at h1
      exact Finmap.not_mem_erase_self (Finmap.mem_keys.mp h1)
    have hlisted : ∀ a, a ∈ rangeAppend (s.erase id) order ↔
        ∃ k, k ≠ id ∧ s.lookup k = some a := by
      intro a
      rw [mem_rangeAppend_iff _ order horder a]
      constructor
      · rintro ⟨k, hk⟩
        have hne : k ≠ id := by
          intro h
          rw [h, Finmap.lookup_erase] at hk
          exact absurd hk (by simp)
        rw [Finmap.lookup_erase_ne hne] at hk
        exact ⟨k, hne, hk⟩
      · rintro ⟨k, hne, hk⟩
        exact ⟨k, by rw [Finmap.lookup_erase_ne hne]; exact hk⟩
    refine ⟨rangeAppend (s.erase id) order, rfl, hnot, ?_, ?_, ?_⟩
    · change (rangeAppend (s.erase id) order).map some = _
      rw [rangeAppend_map_some _ order horder]
      apply List.map_congr_left
      intro k hk
      have hne : k ≠ id := fun h => hnot (h ▸ hk)
      exact Finmap.lookup_erase_ne hne
    · change (rangeAppend (s.erase id) order).length + 1 = _
      rw [rangeAppend_length _ order horder, Finmap.keys_erase]
      exact Finset.card_erase_add_one (Finmap.mem_keys.mpr hmem)
    · intro a ha
      refine ⟨?_, hlisted a, ?_⟩
      · rw [rangeAppend_multiset _ order horder, entries_eq_cons_erase s id a ha,
          Multiset.map_cons]
      · intro hwk hin
        obtain ⟨k, hne, hk⟩ := (hlisted a).mp hin
        have h1 := (wellKeyed_iff_lookup s).mp hwk k a hk
        have h2 := (wellKeyed_iff_lookup s).mp hwk id a ha
        exact hne (h1.symm.trans h2)

theorem delete_removes_key_witness :
    (DeleteAccount ((assetDB.insert "d1" (sample "d1" 1)).insert "d2" (sample "d2" 2)) "d1").2
        = ⟨204, Body.empty⟩ ∧
      (GetAccount (DeleteAccount
        ((assetDB.insert "d1" (sample "d1" 1)).insert "d2" (sample "d2" 2)) "d1").1 "d1").2.status
        = 404 ∧
      ∀ order, IsRangeOrder (DeleteAccount
          ((assetDB.insert "d1" (sample "d1" 1)).insert "d2" (sample "d2" 2)) "d1").1 order →
        ∃ l, (ListAllAccounts (DeleteAccount
            ((assetDB.insert "d1" (sample "d1" 1)).insert "d2" (sample "d2" 2)) "d1").1 order).2
            = ⟨200, Body.accounts l⟩ ∧
          "d1" ∉ order ∧
          l.map some = order.map (fun k =>
            ((assetDB.insert "d1" (sample "d1" 1)).insert "d2" (sample "d2" 2)).lookup k) ∧
          l.length + 1
            = ((assetDB.insert "d1" (sample "d1" 1)).insert "d2" (sample "d2" 2)).keys.card ∧
          ∀ a, ((assetDB.insert "d1" (sample "d1" 1)).insert "d2" (sample "d2" 2)).lookup "d1"
              = some a →
            (a ::ₘ (l : Multiset Account)
                = ((assetDB.insert "d1" (sample "d1" 1)).insert "d2"
                    (sample "d2" 2)).entries.map Sigma.snd ∧
              (a ∈ l ↔ ∃ k, k ≠ "d1" ∧
                ((assetDB.insert "d1" (sample "d1" 1)).insert "d2" (sample "d2" 2)).lookup k
                  = some a) ∧
              (WellKeyed ((assetDB.insert "d1" (sample "d1" 1)).insert "d2" (sample "d2" 2)) →
                a ∉ l)) :=
  delete_removes_key ((assetDB.insert "d1" (sample "d1" 1)).insert "d2" (sample "d2" 2)) "d1"
    (by decide)

end AccountAPI
